import Mathlib

/-!
Shallow embedding of the biomanager document metadata extraction and
resolution pipeline, translated from:

* `src/core/extractor.py`  — pattern extractors, `needs_ocr`, the patent
  number validator and the certificate OCR-remedy step;
* `src/core/resolver.py`   — title similarity, confidence scoring and
  `resolve_doi`;
* `src/core/ocr.py`        — the OCR gateway return values;
* `src/ui/main_window.py`  — `ScanWorker._process_pdf`, the per-file
  orchestration that persists a paper row and a status.

Modelling conventions:

* Python strings are `String` / `List Char`.  The Python character classes
  `\w`, `\d` and whitespace are modelled on their ASCII fragment
  (`Char.isAlphanum`, `Char.isDigit`, `Char.isWhitespace`); every concrete
  input used below is ASCII, and the general theorems do not depend on the
  exact class.
* Python float arithmetic in the confidence scorer is modelled with `ℚ`.
  Every quantity the scorer produces at the comparison points used here
  (multiples of 1/10 of a Jaccard ratio plus integer bonuses) is
  representable exactly; in particular the values 0, 40, 100 compared
  against the thresholds 0 and 80 are exact in double precision as well.
* External I/O (catalog queries, OCR responses) is passed in as explicit
  arguments, so every function is pure and executable.
-/

/-! ### Basic Python string operations -/

/-- Python word character `\w` (ASCII fragment). -/
def isWordChar (c : Char) : Bool := c.isAlphanum || c = '_'

def notWS (c : Char) : Bool := !c.isWhitespace

/-- Python `str.strip()`: drop whitespace from both ends. -/
def trimChars (cs : List Char) : List Char :=
  ((cs.dropWhile Char.isWhitespace).reverse.dropWhile Char.isWhitespace).reverse

def pyStrip (s : String) : String := String.mk (trimChars s.data)

/-- Python `str.lower()` (ASCII case fold). -/
def pyLower (s : String) : String := String.mk (s.data.map Char.toLower)

/-- Python `str.split()` with no argument: split on runs of whitespace,
discarding empty pieces.  Fuel-indexed so the recursion is structural;
`cs.length` fuel always suffices and the initial call supplies it. -/
def splitWordsF : Nat → List Char → List (List Char)
  | 0, _ => []
  | _ + 1, [] => []
  | fuel + 1, c :: rest =>
    if c.isWhitespace then splitWordsF fuel rest
    else (c :: rest.takeWhile notWS) :: splitWordsF fuel (rest.dropWhile notWS)

def splitWords (cs : List Char) : List (List Char) := splitWordsF cs.length cs

/-- Python `needle in haystack` substring test. -/
def isSubstr (n h : List Char) : Bool := h.tails.any (fun t => n.isPrefixOf t)

/-- Python truthiness of an optional string: `None` and `""` are falsy. -/
def strT : Option String → Bool
  | none => false
  | some s => !s.data.isEmpty

/-- Python truthiness of an optional int: `None` and `0` are falsy. -/
def intT : Option Int → Bool
  | none => false
  | some n => decide (n ≠ 0)

/-- Python `a or b` on optional strings. -/
def pyOrS (a b : Option String) : Option String := if strT a then a else b

/-- Python `a or b` on optional ints. -/
def pyOrI (a b : Option Int) : Option Int := if intT a then a else b

/-- Python `a or d` where `d` is a plain string default. -/
def pyOrSD (a : Option String) (d : String) : String :=
  match a with
  | none => d
  | some s => if s.data.isEmpty then d else s

/-! ### extractor.needs_ocr -/

/-- `extractor.needs_ocr`: the stripped text is shorter than 200 characters. -/
def needs_ocr (text : String) : Bool := decide ((trimChars text.data).length < 200)

/-! ### Data model for resolution (resolver.py) -/

/-- The dict `{'title','authors','year','venue','doi'}` that
`ScanWorker._process_pdf` passes to `resolve_doi`. -/
structure PaperFields where
  title : Option String
  authors : Option String
  year : Option Int
  venue : Option String
  doi : Option String
deriving Repr, DecidableEq

/-- A catalog search result as built by `query_crossref` / `query_openalex` /
`query_crossref_by_doi` (the fields the pipeline reads). -/
structure Candidate where
  doi : Option String
  title : Option String
  authors : Option String
  year : Option Int
  venue : Option String
  url : Option String
deriving Repr, DecidableEq

/-- `config.DOI_MATCH_THRESHOLD`. -/
def DOI_MATCH_THRESHOLD : ℚ := 80

/-! ### Confidence scoring (resolver.py) -/

/-- `resolver.normalize_title`: lower-case, then drop every character that is
neither a word character nor whitespace (`re.sub(r'[^\w\s]', '', ·)`). -/
def normalize_title (t : String) : String :=
  String.mk ((t.data.map Char.toLower).filter (fun c => isWordChar c || c.isWhitespace))

/-- The word set `set(normalize_title(t).split())`, as a duplicate-free list. -/
def titleWords (t : String) : List (List Char) := (splitWords (normalize_title t).data).dedup

/-- The Jaccard part of `resolver.title_similarity`: `inter` and `union`
compute the cardinalities of the set intersection and set union of the
duplicate-free word lists `w1`, `w2` (Python set sizes). -/
def jaccardWords (w1 w2 : List (List Char)) : ℚ :=
  if w1.isEmpty || w2.isEmpty then 0
  else
    let inter := (w1.filter (fun w => decide (w ∈ w2))).length
    let union := w1.length + (w2.filter (fun w => !decide (w ∈ w1))).length
    if 0 < union then (inter : ℚ) / (union : ℚ) * 100 else 0

/-- `resolver.title_similarity`: Jaccard similarity of the two normalized
word sets × 100; 0 when either title is missing or empty. -/
def title_similarity (t1 t2 : Option String) : ℚ :=
  if !strT t1 || !strT t2 then 0
  else jaccardWords (titleWords (t1.getD "")) (titleWords (t2.getD ""))

/-- `(x or '').lower().split(';')[0].strip()` — the first-author comparison key
used by `calculate_confidence`. -/
def firstAuthorKey (a : Option String) : List Char :=
  trimChars (((pyOrSD a "").data.map Char.toLower).takeWhile (fun c => c ≠ ';'))

/-- The year bonus of `calculate_confidence`: +20 on equal years, +10 when one
apart, only when both years are present and non-zero (Python truthiness). -/
def yearTerm (py cy : Option Int) : ℚ :=
  if intT py && intT cy then
    match py, cy with
    | some a, some b => if a = b then 20 else if (a - b).natAbs ≤ 1 then 10 else 0
    | _, _ => 0
  else 0

/-- The first-author bonus of `calculate_confidence`: +20 when the first ten
characters agree, else +10 when the last name token agrees. -/
def authorTerm (pa ca : Option String) : ℚ :=
  let p := firstAuthorKey pa
  let c := firstAuthorKey ca
  if !p.isEmpty && !c.isEmpty then
    if p.take 10 = c.take 10 then 20
    else
      match (splitWords p).getLast?, (splitWords c).getLast? with
      | some lp, some lc => if lp = lc then 10 else 0
      | _, _ => 0
  else 0

/-- The venue bonus of `calculate_confidence`: +20 when any of the first three
words of the input venue occurs as a substring of the candidate venue. -/
def venueTerm (pv cv : Option String) : ℚ :=
  let p := (pyOrSD pv "").data.map Char.toLower
  let c := (pyOrSD cv "").data.map Char.toLower
  if !p.isEmpty && !c.isEmpty && ((splitWords p).take 3).any (fun w => isSubstr w c)
  then 20 else 0

/-- `resolver.calculate_confidence`:
`0.4 × title_similarity + year_term + author_term + venue_term`, capped at
100. -/
def calculate_confidence (paper : PaperFields) (cand : Candidate) : ℚ :=
  min (title_similarity paper.title cand.title * (2/5)
      + yearTerm paper.year cand.year
      + authorTerm paper.authors cand.authors
      + venueTerm paper.venue cand.venue) 100

/-! ### resolver.resolve_doi -/

/-- The tuple `(doi, confidence, source, full_metadata)` returned by
`resolver.resolve_doi`; the `full_metadata` dict is `none` when the code
returns `{}`. -/
structure ResolveResult where
  doi : Option String
  confidence : ℚ
  source : String
  merged : Option Candidate
deriving Repr, DecidableEq

/-- One iteration of the best-candidate loop of `resolve_doi`: replace the
accumulator when the candidate scores strictly higher. -/
def bestStep (paper : PaperFields) (acc : ℚ × Option Candidate) (c : Candidate) :
    ℚ × Option Candidate :=
  let s := calculate_confidence paper c
  if acc.1 < s then (s, some c) else acc

/-- The best-candidate loop of `resolve_doi`: fold over the results keeping
the strictly best score (initially `0, None`). -/
def bestOf (paper : PaperFields) (results : List Candidate) : ℚ × Option Candidate :=
  results.foldl (bestStep paper) (0, none)

/-- The catalog queries of `resolve_doi` are issued only when a title is
present; otherwise `results` stays empty. -/
def resolveCandidates (paper : PaperFields) (searchResults : List Candidate) : List Candidate :=
  if strT paper.title then searchResults else []

/-- The fuzzy-search portion of `resolve_doi` (after the DOI short-circuit):
results are queried only when a title is present, then scored and
classified against `DOI_MATCH_THRESHOLD`. -/
def resolveSearch (paper : PaperFields) (searchResults : List Candidate) : ResolveResult :=
  let results := resolveCandidates paper searchResults
  if results.isEmpty then ⟨none, 0, "none", none⟩
  else
    let best := bestOf paper results
    match best.2 with
    | some m =>
      if DOI_MATCH_THRESHOLD ≤ best.1 then ⟨m.doi, best.1, "auto", some m⟩
      else ⟨none, best.1, "review", some m⟩
    | none => ⟨none, 0, "none", none⟩

/-- `resolver.resolve_doi`, with the external catalog answers supplied as
arguments: `byDoi` is the answer of `query_crossref_by_doi paper.doi` and
`searchResults` is the concatenation of the `query_crossref` and
`query_openalex` result lists. -/
def resolve_doi (paper : PaperFields) (byDoi : Option Candidate)
    (searchResults : List Candidate) : ResolveResult :=
  if strT paper.doi then
    match byDoi with
    | some m => ⟨paper.doi, 100, "doi_lookup", some m⟩
    | none => resolveSearch paper searchResults
  else resolveSearch paper searchResults

/-! ### ScanWorker._process_pdf (main_window.py) -/

/-- The result of `extract_metadata_from_pdf` (the fields `_process_pdf`
reads). -/
structure Meta where
  title : Option String
  authors : Option String
  year : Option Int
  venue : Option String
  doi : Option String
  url : Option String
  text : String
deriving Repr, DecidableEq

/-- The arguments of the `upsert_paper` call that any given claim refers to
(`entry_type`, `publication_type` and `bibtex_key` are not referenced by any
claim and are omitted). -/
structure PaperRow where
  title : Option String
  authors : Option String
  year : Option Int
  venue : Option String
  doi : Option String
  url : Option String
  confidence : ℚ
  source : String
deriving Repr, DecidableEq

/-- Outcome of one `needs_scan` pass of `_process_pdf` over a single file:
the persisted paper row, the status written by `update_pdf_status`, and
whether `resolve_doi` was invoked. -/
structure ProcessOutcome where
  row : PaperRow
  status : String
  resolverCalled : Bool
deriving Repr, DecidableEq

def metaPaper (m : Meta) : PaperFields := ⟨m.title, m.authors, m.year, m.venue, m.doi⟩

/-- `full_meta.get(key)` where `full_meta` may be the empty dict. -/
def mGetS (m : Option Candidate) (f : Candidate → Option String) : Option String :=
  match m with
  | none => none
  | some c => f c

def mGetI (m : Option Candidate) (f : Candidate → Option Int) : Option Int :=
  match m with
  | none => none
  | some c => f c

/-- `ScanWorker._process_pdf`, the `needs_scan` branch: either the short-text
path (status `needs_ocr`, confidence 0, source `pdf`, no resolver call) or
the resolve path (candidate fields preferred over extracted ones via Python
`or`, status derived from the returned confidence). -/
def process_pdf (meta : Meta) (basename : String) (byDoi : Option Candidate)
    (searchResults : List Candidate) : ProcessOutcome :=
  if needs_ocr meta.text then
    { row := { title := some (pyOrSD meta.title basename)
               authors := some (pyOrSD meta.authors "")
               year := meta.year
               venue := some (pyOrSD meta.venue "")
               doi := some (pyOrSD meta.doi "")
               url := some (pyOrSD meta.url "")
               confidence := 0
               source := "pdf" }
      status := "needs_ocr"
      resolverCalled := false }
  else
    let r := resolve_doi (metaPaper meta) byDoi searchResults
    { row := { title := pyOrS (mGetS r.merged (·.title)) meta.title
               authors := pyOrS (mGetS r.merged (·.authors)) meta.authors
               year := pyOrI (mGetI r.merged (·.year)) meta.year
               venue := pyOrS (mGetS r.merged (·.venue)) meta.venue
               doi := r.doi
               url := pyOrS (mGetS r.merged (·.url)) meta.url
               confidence := r.confidence
               source := r.source }
      status := if (80 : ℚ) ≤ r.confidence then "success"
                else if (0 : ℚ) < r.confidence then "needs_review" else "needs_ocr"
      resolverCalled := true }

/-! ### Helper lemmas: the scorer is non-negative -/

lemma jaccardWords_nonneg (w1 w2 : List (List Char)) : 0 ≤ jaccardWords w1 w2 := by
  unfold jaccardWords
  split
  · norm_num
  · dsimp only
    split
    · positivity
    · norm_num

lemma title_similarity_nonneg (t1 t2 : Option String) : 0 ≤ title_similarity t1 t2 := by
  unfold title_similarity
  split
  · norm_num
  · exact jaccardWords_nonneg _ _

lemma yearTerm_nonneg (py cy : Option Int) : 0 ≤ yearTerm py cy := by
  unfold yearTerm
  rcases py with _ | a <;> rcases cy with _ | b <;> simp [intT] <;> split_ifs <;> norm_num

lemma authorTerm_nonneg (pa ca : Option String) : 0 ≤ authorTerm pa ca := by
  unfold authorTerm
  dsimp only
  split_ifs <;> try norm_num
  split
  · split_ifs <;> norm_num
  · norm_num

lemma venueTerm_nonneg (pv cv : Option String) : 0 ≤ venueTerm pv cv := by
  unfold venueTerm
  dsimp only
  split_ifs <;> norm_num

lemma calculate_confidence_nonneg (p : PaperFields) (c : Candidate) :
    0 ≤ calculate_confidence p c :=
  le_min
    (add_nonneg
      (add_nonneg
        (add_nonneg (mul_nonneg (title_similarity_nonneg _ _) (by norm_num))
          (yearTerm_nonneg _ _))
        (authorTerm_nonneg _ _))
      (venueTerm_nonneg _ _))
    (by norm_num)

/-! ### Helper lemmas: words of a string are substrings of it -/

lemma splitWordsF_word_within :
    ∀ (fuel : Nat), ∀ (cs w : List Char), w ∈ splitWordsF fuel cs → w <:+: cs := by
  intro fuel
  induction fuel with
  | zero => intro cs w h; simp [splitWordsF] at h
  | succ n ih =>
    intro cs w h
    cases cs with
    | nil => simp [splitWordsF] at h
    | cons c rest =>
      rw [splitWordsF] at h
      by_cases hws : c.isWhitespace
      · rw [if_pos hws] at h
        exact List.infix_cons (ih rest w h)
      · rw [if_neg hws] at h
        rcases List.mem_cons.mp h with h | h
        · subst h
          obtain ⟨t, ht⟩ := List.takeWhile_prefix (l := rest) notWS
          exact ⟨[], t, by simp [ht]⟩
        · exact List.infix_cons
            (List.IsInfix.trans (ih _ w h)
              ( List.IsSuffix.isInfix (List.dropWhile_suffix notWS)))

lemma mem_splitWords_within {cs w : List Char} (h : w ∈ splitWords cs) : w <:+: cs :=
  splitWordsF_word_within _ _ _ h

lemma isSubstr_of_within {n h : List Char} (hinf : n <:+: h) : isSubstr n h = true := by
  unfold isSubstr
  rw [List.any_eq_true]
  obtain ⟨t, hpre, hsuf⟩ := List.infix_iff_prefix_suffix.mp hinf
  exact ⟨t, (List.mem_tails _ _).mpr hsuf, List.isPrefixOf_iff_prefix.mpr hpre⟩

/-! ### Helper lemmas: the scorer on identical inputs -/

lemma jaccardWords_self (w : List (List Char)) (h : w ≠ []) : jaccardWords w w = 100 := by
  unfold jaccardWords
  rw [if_neg (by simp [List.isEmpty_iff, h])]
  dsimp only
  have h1 : w.filter (fun x => decide (x ∈ w)) = w :=
    List.filter_eq_self.mpr (by intro a ha; simpa using ha)
  have h2 : w.filter (fun x => !decide (x ∈ w)) = [] := by
    simp only [List.filter_eq_nil_iff]
    intro a ha
    simp [ha]
  rw [h1, h2]
  simp only [List.length_nil, Nat.add_zero]
  rw [if_pos (List.length_pos.mpr h)]
  have hn : (w.length : ℚ) ≠ 0 := Nat.cast_ne_zero.mpr (List.length_pos.mpr h).ne'
  rw [div_self hn, one_mul]

lemma titleWords_eq_of_normalize_eq {t1 t2 : String}
    (h : normalize_title t1 = normalize_title t2) : titleWords t1 = titleWords t2 := by
  unfold titleWords
  rw [h]

lemma data_ne_nil_of_titleWords_ne_nil {t : String} (h : titleWords t ≠ []) :
    t.data ≠ [] := by
  intro hd
  apply h
  unfold titleWords normalize_title
  rw [hd]
  rfl

lemma venueTerm_self {v : String} (hv : v.data ≠ [])
    (hw : splitWords (v.data.map Char.toLower) ≠ []) :
    venueTerm (some v) (some v) = 20 := by
  unfold venueTerm
  dsimp only
  have hpy : pyOrSD (some v) "" = v := by
    simp [pyOrSD, List.isEmpty_iff, hv]
  rw [hpy]
  obtain ⟨w, ws, hsp⟩ := List.exists_cons_of_ne_nil hw
  have hmem : w ∈ splitWords (v.data.map Char.toLower) := by
    rw [hsp]
    exact List.mem_cons_self _ _
  have hsub : isSubstr w (v.data.map Char.toLower) = true :=
    isSubstr_of_within (mem_splitWords_within hmem)
  have hne : (v.data.map Char.toLower).isEmpty = false := by
    simp [List.isEmpty_iff, hv]
  have hany : ((splitWords (v.data.map Char.toLower)).take 3).any
      (fun u => isSubstr u (v.data.map Char.toLower)) = true := by
    rw [hsp]
    rw [List.any_eq_true]
    exact ⟨w, by simp [List.take_succ_cons], hsub⟩
  rw [if_pos (by rw [hne, hany]; rfl)]

/-! ### Helper lemmas: the best-candidate loop -/

lemma bestFold_inv (p : PaperFields) :
    ∀ (l : List Candidate) (acc : ℚ × Option Candidate),
      0 ≤ acc.1 → (acc.2.isSome = true → 0 < acc.1) →
      0 ≤ (l.foldl (bestStep p) acc).1 ∧
        ((l.foldl (bestStep p) acc).2.isSome = true → 0 < (l.foldl (bestStep p) acc).1) := by
  intro l
  induction l with
  | nil => intro acc h1 h2; exact ⟨h1, h2⟩
  | cons a t ih =>
    intro acc h1 h2
    rw [List.foldl_cons]
    apply ih
    · unfold bestStep
      dsimp only
      split
      · exact le_of_lt (lt_of_le_of_lt h1 (by assumption))
      · exact h1
    · unfold bestStep
      dsimp only
      split
      · intro _
        exact lt_of_le_of_lt h1 (by assumption)
      · exact h2

lemma bestOf_inv (p : PaperFields) (l : List Candidate) :
    0 ≤ (bestOf p l).1 ∧ ((bestOf p l).2.isSome = true → 0 < (bestOf p l).1) :=
  bestFold_inv p l (0, none) le_rfl (by simp)

lemma bestOf_fst_nonneg (p : PaperFields) (l : List Candidate) : 0 ≤ (bestOf p l).1 :=
  (bestOf_inv p l).1

lemma bestOf_pos_of_some (p : PaperFields) (l : List Candidate) {c : Candidate}
    (h : (bestOf p l).2 = some c) : 0 < (bestOf p l).1 :=
  (bestOf_inv p l).2 (by rw [h]; rfl)

/-! ### Helper lemmas: resolve_doi branch analysis -/

lemma resolveSearch_confidence_nonneg (p : PaperFields) (rs : List Candidate) :
    0 ≤ (resolveSearch p rs).confidence := by
  unfold resolveSearch
  dsimp only
  split
  · norm_num
  · split
    · split_ifs <;> exact bestOf_fst_nonneg p _
    · norm_num

lemma resolve_confidence_nonneg (p : PaperFields) (bd : Option Candidate)
    (rs : List Candidate) : 0 ≤ (resolve_doi p bd rs).confidence := by
  unfold resolve_doi
  split
  · cases bd with
    | none => exact resolveSearch_confidence_nonneg p rs
    | some m => norm_num
  · exact resolveSearch_confidence_nonneg p rs

lemma resolveSearch_review_inv (p : PaperFields) (rs : List Candidate)
    (h : (resolveSearch p rs).source = "review") :
    ∃ c, (bestOf p (resolveCandidates p rs)).2 = some c ∧
      resolveSearch p rs =
        ⟨none, (bestOf p (resolveCandidates p rs)).1, "review", some c⟩ ∧
      0 < (bestOf p (resolveCandidates p rs)).1 ∧
      (bestOf p (resolveCandidates p rs)).1 < 80 := by
  unfold resolveSearch at h ⊢
  dsimp only at h ⊢
  by_cases he : (resolveCandidates p rs).isEmpty = true
  · rw [if_pos he] at h
    dsimp only at h
    exact absurd h (by decide)
  · rw [if_neg he] at h ⊢
    rcases hbm : (bestOf p (resolveCandidates p rs)).2 with _ | m
    · rw [hbm] at h
      dsimp only at h
      exact absurd h (by decide)
    · rw [hbm] at h
      dsimp only at h
      dsimp only
      by_cases hth : DOI_MATCH_THRESHOLD ≤ (bestOf p (resolveCandidates p rs)).1
      · rw [if_pos hth] at h
        dsimp only at h
        exact absurd h (by decide)
      · refine ⟨m, rfl, ?_, bestOf_pos_of_some p _ hbm, ?_⟩
        · rw [if_neg hth]
        · simpa [DOI_MATCH_THRESHOLD] using not_le.mp hth

lemma resolve_doi_review_eq_search (p : PaperFields) (bd : Option Candidate)
    (rs : List Candidate) (h : (resolve_doi p bd rs).source = "review") :
    resolve_doi p bd rs = resolveSearch p rs := by
  unfold resolve_doi at h ⊢
  by_cases hd : strT p.doi = true
  · rw [if_pos hd] at h ⊢
    cases bd with
    | none => rfl
    | some m =>
      dsimp only at h
      exact absurd h (by decide)
  · rw [if_neg hd]

lemma resolveSearch_review_of_mid (p : PaperFields) (rs : List Candidate) (c : Candidate)
    (hb : (bestOf p (resolveCandidates p rs)).2 = some c)
    (h2 : (bestOf p (resolveCandidates p rs)).1 < 80) :
    resolveSearch p rs =
      ⟨none, (bestOf p (resolveCandidates p rs)).1, "review", some c⟩ := by
  unfold resolveSearch
  dsimp only
  have hne : resolveCandidates p rs ≠ [] := by
    intro h0
    rw [h0] at hb
    simp [bestOf] at hb
  rw [if_neg (by simpa [List.isEmpty_iff] using hne)]
  rw [hb]
  dsimp only
  rw [if_neg (by simp only [DOI_MATCH_THRESHOLD]; exact not_le.mpr h2)]

/-! ### Claim theorems on the resolver and orchestrator -/

/-- C2: for every file whose stripped extracted text is shorter than 200
characters, `_process_pdf` assigns status `needs_ocr`, persists the record
with confidence 0 and source `pdf`, and never calls the resolver, regardless
of any other extracted field values. -/
theorem scan_short_text_needs_ocr (meta : Meta) (basename : String)
    (byDoi : Option Candidate) (rs : List Candidate)
    (h : needs_ocr meta.text = true) :
    (process_pdf meta basename byDoi rs).status = "needs_ocr" ∧
    (process_pdf meta basename byDoi rs).row.confidence = 0 ∧
    (process_pdf meta basename byDoi rs).row.source = "pdf" ∧
    (process_pdf meta basename byDoi rs).resolverCalled = false := by
  unfold process_pdf
  rw [if_pos h]
  exact ⟨rfl, rfl, rfl, rfl⟩

theorem scan_short_text_needs_ocr_witness :
    (process_pdf ⟨some "t", some "a", some 2020, none, some "10.1/x", none, "tiny"⟩
        "f.pdf" none []).status = "needs_ocr" ∧
    (process_pdf ⟨some "t", some "a", some 2020, none, some "10.1/x", none, "tiny"⟩
        "f.pdf" none []).row.confidence = 0 ∧
    (process_pdf ⟨some "t", some "a", some 2020, none, some "10.1/x", none, "tiny"⟩
        "f.pdf" none []).row.source = "pdf" ∧
    (process_pdf ⟨some "t", some "a", some 2020, none, some "10.1/x", none, "tiny"⟩
        "f.pdf" none []).resolverCalled = false :=
  scan_short_text_needs_ocr _ _ _ _ (by decide)

/-- A 200-character text used by witnesses for the long-text path. -/
def longText : String := String.mk (List.replicate 200 'x')

/-- C1: for every file whose stripped extracted text has at least 200
characters, `_process_pdf` invokes the resolver and persists a status that is
a pure function of the returned confidence: `>= 80` gives `success`,
strictly between 0 and 80 gives `needs_review`, and 0 gives `needs_ocr`;
the returned confidence is never negative, so exactly one case applies. -/
theorem scan_long_text_status (meta : Meta) (basename : String)
    (byDoi : Option Candidate) (rs : List Candidate)
    (h : needs_ocr meta.text = false) :
    (process_pdf meta basename byDoi rs).resolverCalled = true ∧
    (process_pdf meta basename byDoi rs).row.confidence =
      (resolve_doi (metaPaper meta) byDoi rs).confidence ∧
    0 ≤ (resolve_doi (metaPaper meta) byDoi rs).confidence ∧
    (80 ≤ (resolve_doi (metaPaper meta) byDoi rs).confidence →
      (process_pdf meta basename byDoi rs).status = "success") ∧
    (0 < (resolve_doi (metaPaper meta) byDoi rs).confidence ∧
        (resolve_doi (metaPaper meta) byDoi rs).confidence < 80 →
      (process_pdf meta basename byDoi rs).status = "needs_review") ∧
    ((resolve_doi (metaPaper meta) byDoi rs).confidence = 0 →
      (process_pdf meta basename byDoi rs).status = "needs_ocr") := by
  unfold process_pdf
  rw [if_neg (by simp [h])]
  dsimp only
  refine ⟨rfl, rfl, resolve_confidence_nonneg _ _ _, ?_, ?_, ?_⟩
  · intro hc
    rw [if_pos hc]
  · rintro ⟨hc1, hc2⟩
    rw [if_neg (not_le.mpr hc2), if_pos hc1]
  · intro hc
    rw [if_neg (by rw [hc]; norm_num), if_neg (by rw [hc]; norm_num)]

set_option maxRecDepth 8192 in
theorem scan_long_text_status_witness :
    needs_ocr longText = false ∧
    (process_pdf ⟨none, none, none, none, none, none, longText⟩ "f.pdf" none []).status =
      "needs_ocr" := by
  have h := scan_long_text_status ⟨none, none, none, none, none, none, longText⟩
    "f.pdf" none [] (by decide)
  exact ⟨by decide, h.2.2.2.2.2 rfl⟩

/-- C4: when the fuzzy search finds a best candidate whose score is strictly
between 0 and the threshold 80 (and no DOI short-circuit applies), `resolve`
returns source `review` with a `None` DOI, the file status becomes
`needs_review`, and the candidate DOI is not persisted onto the record. -/
theorem review_does_not_persist_doi (meta : Meta) (basename : String)
    (byDoi : Option Candidate) (rs : List Candidate) (c : Candidate)
    (hocr : needs_ocr meta.text = false)
    (hd : strT (metaPaper meta).doi = false ∨ byDoi = none)
    (hb : (bestOf (metaPaper meta) (resolveCandidates (metaPaper meta) rs)).2 = some c)
    (hlow : (bestOf (metaPaper meta) (resolveCandidates (metaPaper meta) rs)).1 < 80) :
    resolve_doi (metaPaper meta) byDoi rs =
      ⟨none, (bestOf (metaPaper meta) (resolveCandidates (metaPaper meta) rs)).1,
        "review", some c⟩ ∧
    0 < (bestOf (metaPaper meta) (resolveCandidates (metaPaper meta) rs)).1 ∧
    (process_pdf meta basename byDoi rs).status = "needs_review" ∧
    (process_pdf meta basename byDoi rs).row.doi = none := by
  have hpos := bestOf_pos_of_some _ _ hb
  have hsearch := resolveSearch_review_of_mid (metaPaper meta) rs c hb hlow
  have hres : resolve_doi (metaPaper meta) byDoi rs =
      ⟨none, (bestOf (metaPaper meta) (resolveCandidates (metaPaper meta) rs)).1,
        "review", some c⟩ := by
    unfold resolve_doi
    rcases hd with hd | hd
    · rw [if_neg (by simp [hd])]
      exact hsearch
    · subst hd
      by_cases hdoi : strT (metaPaper meta).doi = true
      · rw [if_pos hdoi]
        exact hsearch
      · rw [if_neg hdoi]
        exact hsearch
  refine ⟨hres, hpos, ?_, ?_⟩
  · unfold process_pdf
    rw [if_neg (by simp [hocr])]
    dsimp only
    rw [hres]
    dsimp only
    rw [if_neg (not_le.mpr hlow), if_pos hpos]
  · unfold process_pdf
    rw [if_neg (by simp [hocr])]
    dsimp only
    rw [hres]

set_option maxRecDepth 8192 in
theorem review_does_not_persist_doi_witness :
    resolve_doi (metaPaper ⟨some "a b", none, none, none, none, none, longText⟩) none
        [⟨some "10.1234/zzz", some "a b", none, none, none, none⟩] =
      ⟨none, 40, "review", some ⟨some "10.1234/zzz", some "a b", none, none, none, none⟩⟩ ∧
    (process_pdf ⟨some "a b", none, none, none, none, none, longText⟩ "f.pdf" none
        [⟨some "10.1234/zzz", some "a b", none, none, none, none⟩]).status = "needs_review" ∧
    (process_pdf ⟨some "a b", none, none, none, none, none, longText⟩ "f.pdf" none
        [⟨some "10.1234/zzz", some "a b", none, none, none, none⟩]).row.doi = none := by
  have hbo : bestOf (metaPaper ⟨some "a b", none, none, none, none, none, longText⟩)
      (resolveCandidates (metaPaper ⟨some "a b", none, none, none, none, none, longText⟩)
        [⟨some "10.1234/zzz", some "a b", none, none, none, none⟩]) =
      (40, some ⟨some "10.1234/zzz", some "a b", none, none, none, none⟩) := by
    have h2 : titleWords "a b" = [['a'], ['b']] := by decide
    simp +decide [bestOf, bestStep, resolveCandidates, calculate_confidence, metaPaper,
      title_similarity, jaccardWords, yearTerm, authorTerm, venueTerm, h2, min_def,
      strT] <;> norm_num
  have h := review_does_not_persist_doi ⟨some "a b", none, none, none, none, none, longText⟩
    "f.pdf" none [⟨some "10.1234/zzz", some "a b", none, none, none, none⟩]
    ⟨some "10.1234/zzz", some "a b", none, none, none, none⟩
    (by decide) (Or.inl (by decide)) (by rw [hbo]) (by rw [hbo]; norm_num)
  refine ⟨?_, h.2.2.1, h.2.2.2⟩
  rw [h.1, hbo]

/-- C10: whenever `resolve` returns source `review`, the below-threshold best
candidate is still returned as the merged-fields component, the orchestrator
persists the candidate title, authors, year, venue and url in preference to
the locally extracted values (the extracted value is used only where the
candidate field is falsy), and the candidate DOI is withheld. -/
theorem review_persists_candidate_fields (meta : Meta) (basename : String)
    (byDoi : Option Candidate) (rs : List Candidate)
    (hocr : needs_ocr meta.text = false)
    (hrev : (resolve_doi (metaPaper meta) byDoi rs).source = "review") :
    ∃ c, (bestOf (metaPaper meta) (resolveCandidates (metaPaper meta) rs)).2 = some c ∧
      (resolve_doi (metaPaper meta) byDoi rs).merged = some c ∧
      (resolve_doi (metaPaper meta) byDoi rs).doi = none ∧
      (process_pdf meta basename byDoi rs).row.title = pyOrS c.title meta.title ∧
      (process_pdf meta basename byDoi rs).row.authors = pyOrS c.authors meta.authors ∧
      (process_pdf meta basename byDoi rs).row.year = pyOrI c.year meta.year ∧
      (process_pdf meta basename byDoi rs).row.venue = pyOrS c.venue meta.venue ∧
      (process_pdf meta basename byDoi rs).row.url = pyOrS c.url meta.url ∧
      (process_pdf meta basename byDoi rs).row.doi = none := by
  have hes := resolve_doi_review_eq_search _ _ _ hrev
  obtain ⟨c, hb, hsr, hpos, hlow⟩ :=
    resolveSearch_review_inv (metaPaper meta) rs (by rw [← hes]; exact hrev)
  have hres : resolve_doi (metaPaper meta) byDoi rs =
      ⟨none, (bestOf (metaPaper meta) (resolveCandidates (metaPaper meta) rs)).1,
        "review", some c⟩ := by rw [hes, hsr]
  refine ⟨c, hb, by rw [hres], by rw [hres], ?_, ?_, ?_, ?_, ?_, ?_⟩ <;>
    · unfold process_pdf
      rw [if_neg (by simp [hocr])]
      dsimp only
      rw [hres]
      try rfl

set_option maxRecDepth 8192 in
theorem review_persists_candidate_fields_witness :
    (resolve_doi (metaPaper ⟨some "a b", none, none, none, none, none, longText⟩)
        none [⟨some "10.1234/zzz", some "a b", some "X Y", none, none, none⟩]).source =
      "review" ∧
    (process_pdf ⟨some "a b", none, none, none, none, none, longText⟩ "f.pdf" none
        [⟨some "10.1234/zzz", some "a b", some "X Y", none, none, none⟩]).row.authors =
      some "X Y" ∧
    (process_pdf ⟨some "a b", none, none, none, none, none, longText⟩ "f.pdf" none
        [⟨some "10.1234/zzz", some "a b", some "X Y", none, none, none⟩]).row.doi =
      none := by
  have h2 : titleWords "a b" = [['a'], ['b']] := by decide
  have hr : resolve_doi (metaPaper ⟨some "a b", none, none, none, none, none,
        longText⟩) none [⟨some "10.1234/zzz", some "a b", some "X Y", none, none, none⟩] =
      ⟨none, 40, "review", some ⟨some "10.1234/zzz", some "a b", some "X Y", none, none,
        none⟩⟩ := by
    simp +decide [resolve_doi, resolveSearch, resolveCandidates, bestOf, bestStep,
      calculate_confidence, metaPaper, title_similarity, jaccardWords, yearTerm,
      authorTerm, venueTerm, h2, min_def, strT, DOI_MATCH_THRESHOLD] <;> norm_num
  obtain ⟨c, _, hme, _, _, hau, _, _, _, hrowdoi⟩ :=
    review_persists_candidate_fields
      ⟨some "a b", none, none, none, none, none, longText⟩ "f.pdf" none
      [⟨some "10.1234/zzz", some "a b", some "X Y", none, none, none⟩]
      (by decide) (by rw [hr])
  have hc : c = ⟨some "10.1234/zzz", some "a b", some "X Y", none, none, none⟩ := by
    rw [hr] at hme
    exact (Option.some_inj.mp hme).symm
  subst hc
  refine ⟨by rw [hr], ?_, hrowdoi⟩
  rw [hau]
  rfl


/-- C3 counterexample: an input/candidate pair with identical normalized
titles, identical (absent) years and identical (absent) venues whose
confidence is only 40, refuting a blanket `>= 80` claim: the year and venue
bonuses require the fields to be present and non-empty. -/
theorem confidence_identical_fields_cex :
    (⟨some "a b", none, none, none, none⟩ : PaperFields).year =
      (⟨none, some "a b", none, none, none, none⟩ : Candidate).year ∧
    (⟨some "a b", none, none, none, none⟩ : PaperFields).venue =
      (⟨none, some "a b", none, none, none, none⟩ : Candidate).venue ∧
    normalize_title "a b" = normalize_title "a b" ∧
    calculate_confidence ⟨some "a b", none, none, none, none⟩
      ⟨none, some "a b", none, none, none, none⟩ < 80 := by
  refine ⟨rfl, rfl, rfl, ?_⟩
  have h2 : titleWords "a b" = [['a'], ['b']] := by decide
  simp +decide [calculate_confidence, title_similarity, jaccardWords, yearTerm, authorTerm,
    venueTerm, h2, min_def] <;> norm_num

/-- C3 (amended): for every input/candidate pair whose titles normalize to the
same string containing at least one word, whose years are both present, equal
and non-zero, and whose venues are both the same string containing at least
one word, the confidence score is at least 80 (title term 40, year term 20,
venue term 20, author term non-negative). -/
theorem confidence_identical_fields_ge_80
    (p : PaperFields) (c : Candidate) (tp tc v : String) (y : Int)
    (hpt : p.title = some tp) (hct : c.title = some tc)
    (hnt : normalize_title tp = normalize_title tc)
    (hw : titleWords tp ≠ [])
    (hpy : p.year = some y) (hcy : c.year = some y) (hy : y ≠ 0)
    (hpv : p.venue = some v) (hcv : c.venue = some v)
    (hvw : splitWords (v.data.map Char.toLower) ≠ []) :
    80 ≤ calculate_confidence p c := by
  have hv : v.data ≠ [] := by
    intro h0
    exact hvw (by rw [h0]; rfl)
  have htp : tp.data ≠ [] := data_ne_nil_of_titleWords_ne_nil hw
  have hwc : titleWords tc ≠ [] := by
    rw [← titleWords_eq_of_normalize_eq hnt]
    exact hw
  have htc : tc.data ≠ [] := data_ne_nil_of_titleWords_ne_nil hwc
  have hts : title_similarity p.title c.title = 100 := by
    rw [hpt, hct]
    unfold title_similarity
    rw [if_neg (by simp [strT, List.isEmpty_iff, htp, htc])]
    simp only [Option.getD_some]
    rw [titleWords_eq_of_normalize_eq hnt]
    exact jaccardWords_self _ hwc
  unfold calculate_confidence
  rw [hts, hpy, hcy, hpv, hcv]
  have hyt : yearTerm (some y) (some y) = 20 := by
    simp [yearTerm, intT, hy]
  have hvt : venueTerm (some v) (some v) = 20 := venueTerm_self hv hvw
  rw [hyt, hvt]
  have ha := authorTerm_nonneg p.authors c.authors
  refine le_min ?_ (by norm_num)
  have h40 : (100 : ℚ) * (2 / 5) = 40 := by norm_num
  rw [h40]
  linarith

theorem confidence_identical_fields_ge_80_witness :
    (80 : ℚ) ≤ calculate_confidence
      ⟨some "Deep Learning", none, some 2020, some "IEEE Conf", none⟩
      ⟨none, some "Deep Learning", some "X", some 2020, some "IEEE Conf", none⟩ :=
  confidence_identical_fields_ge_80 _ _ "Deep Learning" "Deep Learning" "IEEE Conf" 2020
    rfl rfl rfl (by decide) rfl rfl (by decide) rfl rfl (by decide)

/-! ### extractor.validate_patent_number -/

/-- Drop `n` leading ASCII digits, returning the rest (`none` when the input
has fewer than `n` leading digits).  Models the regex fragments `\d{4}` and
`\d{6}`. -/
def dropDigits : Nat → List Char → Option (List Char)
  | 0, cs => some cs
  | n + 1, c :: cs => if c.isDigit then dropDigits n cs else none
  | _ + 1, [] => none

/-- The regex tail `[.][X\d]$`. -/
def patentTail (l : List Char) : Bool :=
  match l with
  | [a, c] => (a == '.') && (c.isDigit || c == 'X')
  | _ => false

/-- `re.match(r'^ZL\d{4}[1-9]\d{6,7}[.][X\d]$', ·)` as a Boolean test (the
alternation `\d{6,7}` is the disjunction over a 6- or 7-digit serial). -/
def patentShape (cs : List Char) : Bool :=
  match cs with
  | 'Z' :: 'L' :: rest =>
    match dropDigits 4 rest with
    | some (t :: rest2) =>
      (decide ('1' ≤ t) && decide (t ≤ '9')) &&
        (match dropDigits 6 rest2 with
         | some rest3 =>
           patentTail rest3 ||
             (match rest3 with
              | c :: rest4 => c.isDigit && patentTail rest4
              | [] => false)
         | none => false)
    | _ => false
  | _ => false

/-- `extractor.validate_patent_number`: returns `(valid, error_message)`.
Mirrors the source order: strip and upper-case, test the `ZL` prefix, remove
spaces, test that the length is 16, then the regex. -/
def validate_patent_number (patent_number : String) : Bool × String :=
  if (trimChars patent_number.data).isEmpty then (false, "专利号不能为空")
  else
    let pn1 := (trimChars patent_number.data).map Char.toUpper
    if !(['Z', 'L'].isPrefixOf pn1) then (false, "专利号必须以\x27ZL\x27开头")
    else
      let pn := pn1.filter (fun c => c ≠ ' ')
      if pn.length ≠ 16 then
        (false, "专利号必须为16位，当前: " ++ toString pn.length ++ "位")
      else if !patentShape pn then
        (false, "专利号格式不正确，请检查: ZL202211551727.X")
      else (true, "")

/-- The shape asserted by the claim sentence (following the claim words, for
comparison with the code): after trimming, upper-casing and removing spaces,
exactly 16 characters of the form `ZL` + 4-digit year + non-zero type digit +
6-to-7-digit serial + `.` + one alphanumeric check character. -/
def claimPatentShape (s : String) : Bool :=
  let pn := (((trimChars s.data).map Char.toUpper).filter (fun c => c ≠ ' '))
  decide (pn.length = 16) &&
    (match pn with
     | 'Z' :: 'L' :: rest =>
       match dropDigits 4 rest with
       | some (t :: rest2) =>
         (decide ('1' ≤ t) && decide (t ≤ '9')) &&
           (match dropDigits 6 rest2 with
            | some rest3 =>
              (match rest3 with
               | [a, c] => (a == '.') && c.isAlphanum
               | c :: rest4 =>
                 c.isDigit &&
                   (match rest4 with
                    | [a, k] => (a == '.') && k.isAlphanum
                    | _ => false)
               | [] => false)
            | none => false)
       | _ => false
     | _ => false)

/-! ### Characterization of the patent-number regex -/

lemma dropDigits_eq_some {n : Nat} : ∀ {cs rest : List Char},
    dropDigits n cs = some rest ↔
      ∃ ds, cs = ds ++ rest ∧ ds.length = n ∧ ∀ c ∈ ds, c.isDigit = true := by
  induction n with
  | zero =>
    intro cs rest
    simp only [dropDigits, Option.some.injEq]
    constructor
    · rintro rfl
      exact ⟨[], by simp, rfl, by simp⟩
    · rintro ⟨ds, h1, h2, _⟩
      rw [List.length_eq_zero] at h2
      subst h2
      simpa using h1
  | succ n ih =>
    intro cs rest
    cases cs with
    | nil =>
      simp only [dropDigits]
      constructor
      · intro h
        simp at h
      · rintro ⟨ds, h1, h2, _⟩
        cases ds with
        | nil => simp at h2
        | cons d ds' => simp at h1
    | cons c cs' =>
      simp only [dropDigits]
      by_cases hd : c.isDigit
      · rw [if_pos hd, ih]
        constructor
        · rintro ⟨ds, rfl, h2, h3⟩
          refine ⟨c :: ds, rfl, by simp [h2], ?_⟩
          intro x hx
          rcases List.mem_cons.mp hx with rfl | hx
          · exact hd
          · exact h3 x hx
        · rintro ⟨ds, h1, h2, h3⟩
          cases ds with
          | nil => simp at h2
          | cons d ds' =>
            injection h1 with hc hrest
            exact ⟨ds', hrest, by simpa using h2, fun x hx => h3 x (List.mem_cons_of_mem _ hx)⟩
      · rw [if_neg hd]
        constructor
        · intro h
          simp at h
        · rintro ⟨ds, h1, h2, h3⟩
          cases ds with
          | nil => simp at h2
          | cons d ds' =>
            injection h1 with hc _
            exact absurd (hc ▸ h3 d (List.mem_cons_self d ds')) (by simpa using hd)

lemma patentTail_eq_true : ∀ {l : List Char},
    patentTail l = true ↔ ∃ c, l = ['.', c] ∧ (c.isDigit = true ∨ c = 'X') := by
  intro l
  cases l with
  | nil => simp [patentTail]
  | cons a l1 =>
    cases l1 with
    | nil => simp [patentTail]
    | cons b l2 =>
      cases l2 with
      | nil =>
        simp only [patentTail, Bool.and_eq_true, Bool.or_eq_true, beq_iff_eq]
        constructor
        · rintro ⟨rfl, h⟩
          exact ⟨b, rfl, h⟩
        · rintro ⟨c, hc, h⟩
          injection hc with h1 h2
          injection h2 with h2 _
          subst h1
          subst h2
          exact ⟨rfl, h⟩
      | cons x l3 => simp [patentTail]

lemma patentShape_cons (rest : List Char) :
    patentShape ('Z' :: 'L' :: rest) =
      (match dropDigits 4 rest with
       | some (t :: rest2) =>
         (decide ('1' ≤ t) && decide (t ≤ '9')) &&
           (match dropDigits 6 rest2 with
            | some rest3 =>
              patentTail rest3 ||
                (match rest3 with
                 | c :: rest4 => c.isDigit && patentTail rest4
                 | [] => false)
            | none => false)
       | _ => false) := rfl

lemma patentShape_iff {cs : List Char} :
    patentShape cs = true ↔
      ∃ ds t sn chk, cs = 'Z' :: 'L' :: (ds ++ t :: (sn ++ ['.', chk])) ∧
        ds.length = 4 ∧ (∀ c ∈ ds, c.isDigit = true) ∧
        '1' ≤ t ∧ t ≤ '9' ∧
        (sn.length = 6 ∨ sn.length = 7) ∧ (∀ c ∈ sn, c.isDigit = true) ∧
        (chk.isDigit = true ∨ chk = 'X') := by
  constructor
  · intro h
    unfold patentShape at h
    split at h
    case h_2 => simp at h
    case h_1 rest =>
      split at h
      case h_2 => simp at h
      case h_1 t rest2 heq4 =>
        rw [Bool.and_eq_true, Bool.and_eq_true, decide_eq_true_eq, decide_eq_true_eq] at h
        obtain ⟨⟨ht1, ht9⟩, h⟩ := h
        split at h
        case h_2 => simp at h
        case h_1 rest3 heq6 =>
          obtain ⟨ds4, hds4eq, hds4len, hds4dig⟩ := dropDigits_eq_some.mp heq4
          obtain ⟨ds6, hds6eq, hds6len, hds6dig⟩ := dropDigits_eq_some.mp heq6
          rw [Bool.or_eq_true] at h
          rcases h with h | h
          · obtain ⟨chk, rfl, hchk⟩ := patentTail_eq_true.mp h
            refine ⟨ds4, t, ds6, chk, ?_, hds4len, hds4dig, ht1, ht9,
              Or.inl hds6len, hds6dig, hchk⟩
            rw [hds4eq, hds6eq]
          · split at h
            case h_2 => simp at h
            case h_1 c rest4 =>
              rw [Bool.and_eq_true] at h
              obtain ⟨hcdig, htail⟩ := h
              obtain ⟨chk, rfl, hchk⟩ := patentTail_eq_true.mp htail
              refine ⟨ds4, t, ds6 ++ [c], chk, ?_, hds4len, hds4dig, ht1, ht9,
                Or.inr (by simp [hds6len]), ?_, hchk⟩
              · rw [hds4eq, hds6eq]
                simp
              · intro x hx
                rcases List.mem_append.mp hx with hx | hx
                · exact hds6dig x hx
                · rw [List.mem_singleton] at hx
                  subst hx
                  exact hcdig
  · rintro ⟨ds, t, sn, chk, rfl, hds4, hdsdig, ht1, ht9, hsn, hsndig, hchk⟩
    rw [patentShape_cons]
    rw [dropDigits_eq_some.mpr ⟨ds, rfl, hds4, hdsdig⟩]
    dsimp only
    rw [Bool.and_eq_true, Bool.and_eq_true, decide_eq_true_eq, decide_eq_true_eq]
    refine ⟨⟨ht1, ht9⟩, ?_⟩
    rcases hsn with h6 | h7
    · rw [dropDigits_eq_some.mpr ⟨sn, rfl, h6, hsndig⟩]
      dsimp only
      rw [Bool.or_eq_true]
      left
      exact patentTail_eq_true.mpr ⟨chk, rfl, hchk⟩
    · obtain ⟨c, hc⟩ := List.length_eq_one.mp (by rw [List.length_drop, h7] : (sn.drop 6).length = 1)
      have hsplit : sn ++ ['.', chk] = sn.take 6 ++ (c :: ['.', chk]) := by
        conv_lhs => rw [← List.take_append_drop 6 sn]
        rw [hc]
        simp
      rw [hsplit]
      rw [dropDigits_eq_some.mpr ⟨sn.take 6, rfl, by simp [h7], ?_⟩]
      · dsimp only
        rw [Bool.or_eq_true]
        right
        rw [Bool.and_eq_true]
        constructor
        · have hcmem : c ∈ sn := by
            have : c ∈ sn.drop 6 := by rw [hc]; exact List.mem_singleton_self c
            exact List.mem_of_mem_drop this
          exact hsndig c hcmem
        · exact patentTail_eq_true.mpr ⟨chk, rfl, hchk⟩
      · intro x hx
        exact hsndig x (List.mem_of_mem_take hx)

/-- The accepted set of `validate_patent_number`, written declaratively: the
trimmed, upper-cased string starts with `ZL` (tested before spaces are
removed); after additionally removing spaces it has exactly 16 characters of
the form `ZL` + 4 digits + a type digit in 1..9 + a 6-or-7-digit serial +
`.` + a check character that is a digit or `X`. -/
def PatentAccepted (s : String) : Prop :=
  ['Z', 'L'].isPrefixOf ((trimChars s.data).map Char.toUpper) = true ∧
  (((trimChars s.data).map Char.toUpper).filter (fun c => c ≠ ' ')).length = 16 ∧
  ∃ ds t sn chk,
    ((trimChars s.data).map Char.toUpper).filter (fun c => c ≠ ' ') =
      'Z' :: 'L' :: (ds ++ t :: (sn ++ ['.', chk])) ∧
    ds.length = 4 ∧ (∀ c ∈ ds, c.isDigit = true) ∧ '1' ≤ t ∧ t ≤ '9' ∧
    (sn.length = 6 ∨ sn.length = 7) ∧ (∀ c ∈ sn, c.isDigit = true) ∧
    (chk.isDigit = true ∨ chk = 'X')

/-- C5 counterexample: `"ZL202211551727.A"` has the claimed 16-character shape
with an alphanumeric check character, but the validator rejects it — the code
regex admits only a digit or `X` as check character, not every alphanumeric. -/
theorem validate_patent_number_cex :
    claimPatentShape "ZL202211551727.A" = true ∧
    (validate_patent_number "ZL202211551727.A").fst = false :=
  ⟨by decide, by decide⟩

/-- C5 (amended): the validator accepts a string iff the trimmed upper-cased
input starts with `ZL` and, after removing spaces, consists of exactly 16
characters of the shape `ZL` + 4-digit year + non-zero type digit +
6-to-7-digit serial + `.` + one check character that is a digit or `X`; in
particular `"ZL202211551727.X"` is valid, `"ZL2022115517272"` is invalid with
a descriptive reason, and the empty string is invalid with reason
`专利号不能为空`.  Validation is a pure function. -/
theorem validate_patent_number_amended :
    (∀ s : String, (validate_patent_number s).fst = true ↔ PatentAccepted s) ∧
    validate_patent_number "ZL202211551727.X" = (true, "") ∧
    (validate_patent_number "ZL2022115517272").fst = false ∧
    (validate_patent_number "ZL2022115517272").snd ≠ "" ∧
    validate_patent_number "" = (false, "专利号不能为空") := by
  refine ⟨?_, by decide, by decide, by decide, by decide⟩
  intro s
  unfold validate_patent_number PatentAccepted
  by_cases h0 : (trimChars s.data).isEmpty = true
  · rw [if_pos h0]
    have he : trimChars s.data = [] := by simpa [List.isEmpty_iff] using h0
    rw [he]
    simp [List.isPrefixOf]
  · rw [if_neg h0]
    dsimp only
    cases h1 : ['Z', 'L'].isPrefixOf ((trimChars s.data).map Char.toUpper) with
    | false =>
      rw [if_pos (by decide : (!false) = true)]
      constructor
      · intro hF
        simp at hF
      · rintro ⟨hx, _⟩
        exact absurd hx (by simp)
    | true =>
      rw [if_neg (by decide : ¬((!true) = true))]
      by_cases h2 :
          (((trimChars s.data).map Char.toUpper).filter (fun c => c ≠ ' ')).length = 16
      · rw [if_neg (not_not_intro h2)]
        cases h3 :
            patentShape (((trimChars s.data).map Char.toUpper).filter (fun c => c ≠ ' ')) with
        | false =>
          rw [if_pos (by decide : (!false) = true)]
          constructor
          · intro hF
            simp at hF
          · rintro ⟨_, _, hx⟩
            have hps := patentShape_iff.mpr hx
            rw [h3] at hps
            exact absurd hps (by simp)
        | true =>
          rw [if_neg (by decide : ¬((!true) = true))]
          constructor
          · intro _
            exact ⟨rfl, h2, patentShape_iff.mp h3⟩
          · intro _
            rfl
      · rw [if_pos h2]
        constructor
        · intro hF
          simp at hF
        · rintro ⟨_, hx, _⟩
          exact absurd hx h2

/-! ### extractor.extract_certificate_info — the OCR remedy step -/

/-- Python falsiness of a certificate field value (`None` or `''`). -/
def fieldMissing : Option String → Bool
  | none => true
  | some s => s.data.isEmpty

/-- `x or None` as applied to the software name
(`ocr_result.get('software_name') or ocr_result.get('title')`, where the
`title` key never exists, so the fallback is `None`). -/
def normOpt (x : Option String) : Option String := if strT x then x else none

/-- One step of the fill loop `if not data.get(key) and ocr.get(key):
data[key] = ocr[key]`. -/
def fillField (old new : Option String) : Option String :=
  if fieldMissing old && !fieldMissing new then new else old

/-- The same fill step for the always-present `patent_type` string. -/
def fillFieldS (old new : String) : String :=
  if old.data.isEmpty && !new.data.isEmpty then new else old

/-- The `data` dict of `extract_patent_info_from_text`. -/
structure PatentData where
  patent_number : Option String
  grant_number : Option String
  title : Option String
  inventors : Option String
  patentee : Option String
  application_date : Option String
  grant_date : Option String
  patent_type : String
deriving Repr, DecidableEq

/-- The seven keys counted by the patent remedy check. -/
def patentMissingCount (d : PatentData) : Nat :=
  (if fieldMissing d.patent_number then 1 else 0) +
  (if fieldMissing d.title then 1 else 0) +
  (if fieldMissing d.inventors then 1 else 0) +
  (if fieldMissing d.patentee then 1 else 0) +
  (if fieldMissing d.grant_number then 1 else 0) +
  (if fieldMissing d.application_date then 1 else 0) +
  (if fieldMissing d.grant_date then 1 else 0)

/-- The fill loop over every key of the patent data dict. -/
def patentFill (d o : PatentData) : PatentData :=
  { patent_number := fillField d.patent_number o.patent_number
    grant_number := fillField d.grant_number o.grant_number
    title := fillField d.title o.title
    inventors := fillField d.inventors o.inventors
    patentee := fillField d.patentee o.patentee
    application_date := fillField d.application_date o.application_date
    grant_date := fillField d.grant_date o.grant_date
    patent_type := fillFieldS d.patent_type o.patent_type }

/-- The OCR-remedy step of the patent branch of `extract_certificate_info`:
when at least 4 of the 7 key fields are missing and the method so far is
`pdf_text`, call the OCR gateway once on page 0, fill only missing fields
from the re-extracted OCR data, and set the method to `pdf+ocr`.  `ocrData`
stands for `extract_patent_info_from_text(ocr_text)`; the third component
lists the pages passed to `ocr_pdf_page`. -/
def patentRemedy (d : PatentData) (method : String) (ocrData : PatentData) :
    PatentData × String × List Nat :=
  if 4 ≤ patentMissingCount d ∧ method = "pdf_text" then
    (patentFill d ocrData, "pdf+ocr", [0])
  else (d, method, [])

/-- The `data` dict of `extract_software_info_from_text`. -/
structure SoftwareData where
  software_name : Option String
  version : Option String
  registration_number : Option String
  copyright_holder : Option String
  development_date : Option String
deriving Repr, DecidableEq

/-- `data['software_name'] = data.get('software_name') or data.get('title')`
(the `title` key never exists). -/
def normSoftwareName (d : SoftwareData) : SoftwareData :=
  { d with software_name := normOpt d.software_name }

/-- The five keys counted by the software remedy check. -/
def softwareMissingCount (d : SoftwareData) : Nat :=
  (if fieldMissing d.software_name then 1 else 0) +
  (if fieldMissing d.registration_number then 1 else 0) +
  (if fieldMissing d.copyright_holder then 1 else 0) +
  (if fieldMissing d.development_date then 1 else 0) +
  (if fieldMissing d.version then 1 else 0)

def softwareFill (d o : SoftwareData) : SoftwareData :=
  { software_name := fillField d.software_name o.software_name
    version := fillField d.version o.version
    registration_number := fillField d.registration_number o.registration_number
    copyright_holder := fillField d.copyright_holder o.copyright_holder
    development_date := fillField d.development_date o.development_date }

/-- The OCR-remedy step of the software branch of `extract_certificate_info`
(software-name normalization applied to both the direct and the OCR data as
in the source). -/
def softwareRemedy (d : SoftwareData) (method : String) (ocrData : SoftwareData) :
    SoftwareData × String × List Nat :=
  let d2 := normSoftwareName d
  if 4 ≤ softwareMissingCount d2 ∧ method = "pdf_text" then
    (softwareFill d2 (normSoftwareName ocrData), "pdf+ocr", [0])
  else (d2, method, [])

/-- The seven key-field accessors of the patent data. -/
def patentFieldGetters : List (PatentData → Option String) :=
  [(·.patent_number), (·.grant_number), (·.title), (·.inventors), (·.patentee),
   (·.application_date), (·.grant_date)]

/-- The five key-field accessors of the software data. -/
def softwareFieldGetters : List (SoftwareData → Option String) :=
  [(·.software_name), (·.version), (·.registration_number), (·.copyright_holder),
   (·.development_date)]

lemma fieldMissing_eq_not_strT (x : Option String) : fieldMissing x = !strT x := by
  cases x <;> simp [fieldMissing, strT]

lemma fillField_keep {a b : Option String} (h : fieldMissing a = false) :
    fillField a b = a := by
  simp [fillField, h]

lemma fillField_fill {a b : Option String} (h1 : fieldMissing a = true)
    (h2 : fieldMissing b = false) : fillField a b = b := by
  simp [fillField, h1, h2]

lemma fillField_still {a b : Option String} (h1 : fieldMissing a = true)
    (h2 : fieldMissing b = true) : fieldMissing (fillField a b) = true := by
  simp [fillField, h1, h2]

lemma normOpt_missing {a : Option String} (h : fieldMissing a = true) :
    normOpt a = none := by
  rw [fieldMissing_eq_not_strT] at h
  simp only [Bool.not_eq_true'] at h
  simp [normOpt, h]

lemma normOpt_keep {a : Option String} (h : fieldMissing a = false) :
    normOpt a = a := by
  rw [fieldMissing_eq_not_strT] at h
  simp only [Bool.not_eq_false'] at h
  simp [normOpt, h]

lemma fillNorm_keep {a b : Option String} (h : fieldMissing a = false) :
    fillField (normOpt a) (normOpt b) = a := by
  rw [normOpt_keep h]
  exact fillField_keep h

lemma fillNorm_fill {a b : Option String} (h1 : fieldMissing a = true)
    (h2 : fieldMissing b = false) : fillField (normOpt a) (normOpt b) = b := by
  rw [normOpt_missing h1, normOpt_keep h2]
  exact fillField_fill rfl h2

lemma fillNorm_still {a b : Option String} (h1 : fieldMissing a = true)
    (h2 : fieldMissing b = true) : fieldMissing (fillField (normOpt a) (normOpt b)) = true := by
  rw [normOpt_missing h1, normOpt_missing h2]
  rfl

/-- C6: during certificate extraction, when after direct-text extraction at
least 4 of the class's key fields are missing and the extraction method is
`pdf_text`, exactly one OCR remedy call is made, on page 0, and only the
fields that were still missing are filled from the OCR result: a field
already populated keeps its direct-text value, a field missing on both sides
stays missing.  Stated for both the patent and the software branch. -/
theorem certificate_ocr_remedy (d o : PatentData) (s os : SoftwareData)
    (hd : 4 ≤ patentMissingCount d)
    (hs : 4 ≤ softwareMissingCount (normSoftwareName s)) :
    ((patentRemedy d "pdf_text" o).2.2 = [0] ∧
      (patentRemedy d "pdf_text" o).2.1 = "pdf+ocr" ∧
      (d.patent_type.data.isEmpty = false →
        (patentRemedy d "pdf_text" o).1.patent_type = d.patent_type) ∧
      (∀ f ∈ patentFieldGetters,
        (fieldMissing (f d) = false → f (patentRemedy d "pdf_text" o).1 = f d) ∧
        (fieldMissing (f d) = true ∧ fieldMissing (f o) = false →
          f (patentRemedy d "pdf_text" o).1 = f o) ∧
        (fieldMissing (f d) = true ∧ fieldMissing (f o) = true →
          fieldMissing (f (patentRemedy d "pdf_text" o).1) = true))) ∧
    ((softwareRemedy s "pdf_text" os).2.2 = [0] ∧
      (softwareRemedy s "pdf_text" os).2.1 = "pdf+ocr" ∧
      (∀ f ∈ softwareFieldGetters,
        (fieldMissing (f s) = false → f (softwareRemedy s "pdf_text" os).1 = f s) ∧
        (fieldMissing (f s) = true ∧ fieldMissing (f os) = false →
          f (softwareRemedy s "pdf_text" os).1 = f os) ∧
        (fieldMissing (f s) = true ∧ fieldMissing (f os) = true →
          fieldMissing (f (softwareRemedy s "pdf_text" os).1) = true))) := by
  have hp : patentRemedy d "pdf_text" o = (patentFill d o, "pdf+ocr", [0]) := by
    unfold patentRemedy
    rw [if_pos ⟨hd, rfl⟩]
  have hw : softwareRemedy s "pdf_text" os =
      (softwareFill (normSoftwareName s) (normSoftwareName os), "pdf+ocr", [0]) := by
    unfold softwareRemedy
    rw [if_pos ⟨hs, rfl⟩]
  refine ⟨⟨by rw [hp], by rw [hp], ?_, ?_⟩, ⟨by rw [hw], by rw [hw], ?_⟩⟩
  · intro hne
    rw [hp]
    show fillFieldS d.patent_type o.patent_type = d.patent_type
    simp [fillFieldS, hne]
  · intro f hf
    rw [hp]
    fin_cases hf <;>
      exact ⟨fun h => fillField_keep h, fun h => fillField_fill h.1 h.2,
        fun h => fillField_still h.1 h.2⟩
  · intro f hf
    rw [hw]
    fin_cases hf
    · exact ⟨fun h => fillNorm_keep h, fun h => fillNorm_fill h.1 h.2,
        fun h => fillNorm_still h.1 h.2⟩
    · exact ⟨fun h => fillField_keep h, fun h => fillField_fill h.1 h.2,
        fun h => fillField_still h.1 h.2⟩
    · exact ⟨fun h => fillField_keep h, fun h => fillField_fill h.1 h.2,
        fun h => fillField_still h.1 h.2⟩
    · exact ⟨fun h => fillField_keep h, fun h => fillField_fill h.1 h.2,
        fun h => fillField_still h.1 h.2⟩
    · exact ⟨fun h => fillField_keep h, fun h => fillField_fill h.1 h.2,
        fun h => fillField_still h.1 h.2⟩

theorem certificate_ocr_remedy_witness :
    (patentRemedy ⟨none, none, none, none, none, some "2022年1月1日", some "2023年2月3日",
        "发明"⟩ "pdf_text"
      ⟨some "ZL202211551727.X", none, some "一种方法", none, none, none, none,
        "发明"⟩).2.2 = [0] ∧
    (patentRemedy ⟨none, none, none, none, none, some "2022年1月1日", some "2023年2月3日",
        "发明"⟩ "pdf_text"
      ⟨some "ZL202211551727.X", none, some "一种方法", none, none, none, none,
        "发明"⟩).1.patent_number = some "ZL202211551727.X" ∧
    (patentRemedy ⟨none, none, none, none, none, some "2022年1月1日", some "2023年2月3日",
        "发明"⟩ "pdf_text"
      ⟨some "ZL202211551727.X", none, some "一种方法", none, none, none, none,
        "发明"⟩).1.application_date = some "2022年1月1日" := by
  have h := certificate_ocr_remedy
    ⟨none, none, none, none, none, some "2022年1月1日", some "2023年2月3日", "发明"⟩
    ⟨some "ZL202211551727.X", none, some "一种方法", none, none, none, none, "发明"⟩
    ⟨none, none, none, none, some "V1.0"⟩ ⟨some "软件A", none, none, none, none⟩
    (by decide) (by decide)
  refine ⟨h.1.1, ?_, ?_⟩
  · exact (h.1.2.2.2 (·.patent_number) (by simp [patentFieldGetters])).2.1
      ⟨by decide, by decide⟩
  · exact (h.1.2.2.2 (·.application_date) (by simp [patentFieldGetters])).1 (by decide)

/-! ### core/ocr.ocr_pdf_page -/

/-- The externally observable situations `ocr_pdf_page` can run into; each
constructor carries the data that the corresponding return statement
interpolates.  `resultTexts` is the success shape (the
`result.layoutParsingResults[].markdown.text` entries of the JSON response);
every other constructor is a failure situation. -/
inductive OcrOutcome where
  | notConfigured
  | pageOutOfRange (total : Nat)
  | httpError (code : Nat) (body : String)
  | resultTexts (texts : List String)
  | errorKey (msg : String)
  | otherShape (rawJson : String)
  | timeout
  | requestError (msg : String)
  | jsonDecodeError (msg : String)
  | exceptionRaised (msg : String)
deriving Repr, DecidableEq

/-- `ocr.ocr_pdf_page`: the string returned in each situation, exactly as in
the source.  The embedding is a total function — no situation raises. -/
def ocr_pdf_page : OcrOutcome → String
  | .notConfigured => "[OCR Error] OCR 未配置，请在 设置 → 扫描设置 中配置OCR服务"
  | .pageOutOfRange total => "[OCR Error] 页码超出范围 (共 " ++ toString total ++ " 页)"
  | .httpError code body =>
    "[OCR Error] HTTP " ++ toString code ++ ": " ++ String.mk (body.data.take 200)
  | .resultTexts texts =>
    let ts := texts.filter (fun t => !t.data.isEmpty)
    if ts.isEmpty then "[OCR Warning] 未识别到文本"
    else String.intercalate "\n\n" ts
  | .errorKey msg => "[OCR Error] " ++ msg
  | .otherShape rawJson => "[OCR Result] " ++ String.mk (rawJson.data.take 300)
  | .timeout => "[OCR Error] 请求超时 (60秒)"
  | .requestError msg => "[OCR Error] 网络请求失败: " ++ msg
  | .jsonDecodeError msg => "[OCR Error] 响应解析失败: " ++ msg
  | .exceptionRaised msg => "[OCR Error] " ++ msg

/-- A failure situation in the claim taxonomy (missing configuration, network
error, timeout, malformed/unexpected/error response, internal exception):
every situation except the `result`-carrying success shape. -/
def isFailureOutcome : OcrOutcome → Bool
  | .resultTexts _ => false
  | _ => true

/-- The valid-JSON-of-unexpected-shape situation. -/
def isOtherShape : OcrOutcome → Bool
  | .otherShape _ => true
  | _ => false

/-- Prefix test on strings (Python `str.startswith`). -/
def strStarts (p s : String) : Bool := p.data.isPrefixOf s.data

lemma strStarts_append (p s r : String) (h : strStarts p s = true) :
    strStarts p (s ++ r) = true := by
  unfold strStarts at h ⊢
  rw [ List.isPrefixOf_iff_prefix] at h ⊢
  rw [String.data_append]
  exact h.trans (List.prefix_append _ _)

/-- C7 counterexample: a response that is valid JSON of an unexpected shape
is a failure (a malformed response), but `ocr_pdf_page` returns a sentinel
starting with `[OCR Result]`, not `[OCR Error]`. -/
theorem ocr_error_prefix_cex :
    isFailureOutcome (.otherShape "null") = true ∧
    strStarts "[OCR Error]" (ocr_pdf_page (.otherShape "null")) = false :=
  ⟨rfl, by decide⟩

/-- C7 (amended): the OCR gateway never raises; on every failure it returns a
sentinel string: prefixed `[OCR Error]` for missing configuration,
out-of-range page, HTTP error, error-key response, timeout, network failure,
unparsable response and internal exception — while a well-formed JSON
response of an unexpected shape yields a `[OCR Result]`-prefixed truncated
raw-JSON sentinel instead. -/
theorem ocr_failures_return_sentinel (o : OcrOutcome)
    (h : isFailureOutcome o = true) :
    (isOtherShape o = false → strStarts "[OCR Error]" (ocr_pdf_page o) = true) ∧
    (isOtherShape o = true → strStarts "[OCR Result]" (ocr_pdf_page o) = true) := by
  cases o with
  | notConfigured => exact ⟨fun _ => by decide, fun hn => by simp [isOtherShape] at hn⟩
  | pageOutOfRange total =>
    refine ⟨fun _ => ?_, fun hn => by simp [isOtherShape] at hn⟩
    exact strStarts_append _ _ _ (strStarts_append _ _ _ (by decide))
  | httpError code body =>
    refine ⟨fun _ => ?_, fun hn => by simp [isOtherShape] at hn⟩
    exact strStarts_append _ _ _ (strStarts_append _ _ _ (strStarts_append _ _ _ (by decide)))
  | resultTexts ts => simp [isFailureOutcome] at h
  | errorKey msg =>
    refine ⟨fun _ => ?_, fun hn => by simp [isOtherShape] at hn⟩
    exact strStarts_append _ _ _ (by decide)
  | otherShape rawJson =>
    refine ⟨fun hn => by simp [isOtherShape] at hn, fun _ => ?_⟩
    exact strStarts_append _ _ _ (by decide)
  | timeout => exact ⟨fun _ => by decide, fun hn => by simp [isOtherShape] at hn⟩
  | requestError msg =>
    refine ⟨fun _ => ?_, fun hn => by simp [isOtherShape] at hn⟩
    exact strStarts_append _ _ _ (by decide)
  | jsonDecodeError msg =>
    refine ⟨fun _ => ?_, fun hn => by simp [isOtherShape] at hn⟩
    exact strStarts_append _ _ _ (by decide)
  | exceptionRaised msg =>
    refine ⟨fun _ => ?_, fun hn => by simp [isOtherShape] at hn⟩
    exact strStarts_append _ _ _ (by decide)

theorem ocr_failures_return_sentinel_witness :
    strStarts "[OCR Error]" (ocr_pdf_page .timeout) = true :=
  (ocr_failures_return_sentinel .timeout rfl).1 rfl

/-! ### extractor.extract_doi_from_text

`DOI_REGEX = r'\b(10\.\d{4,}/[-a-zA-Z0-9._%+]+)\b'`, searched with
`re.findall` (left-to-right, non-overlapping).  `IGNORECASE` is a no-op: the
pattern's only letters sit in a class that already contains both cases.
The greedy runs `\d{4,}` and `[...]+` are deterministic up to the trailing
`\b`, for which the engine backtracks the class run until a word boundary
holds; `shrinkRev` implements exactly that backtracking. -/

/-- The character class `[-a-zA-Z0-9._%+]` (ASCII fragment). -/
def doiClassChar (c : Char) : Bool :=
  c == '-' || c.isAlpha || c.isDigit || c == '.' || c == '_' || c == '%' || c == '+'

/-- `\b` between a character and the following position (`none` = end of
input): exactly one side is a word character. -/
def boundaryAfter (c : Char) (next : Option Char) : Bool :=
  match next with
  | none => isWordChar c
  | some d => isWordChar c != isWordChar d

/-- Backtracking for the trailing `\b`: `rev` is the reversed greedy run,
`next` the character after it; drop characters from the end until the
boundary holds, returning the kept part (original order) and the dropped
suffix (original order). -/
def shrinkRev : List Char → Option Char → Option (List Char × List Char)
  | [], _ => none
  | c :: rev, next =>
    if boundaryAfter c next then some ((c :: rev).reverse, [])
    else
      match shrinkRev rev (some c) with
      | some (kept, dropped) => some (kept, dropped ++ [c])
      | none => none

/-- Try to match `DOI_REGEX` at the start of `cs`; `prevIsWord` says whether
the character before `cs` is a word character (leading `\b`; the first
pattern character `1` is a word character, so the previous one must not be).
Returns the matched group and the remaining input. -/
def matchDoiAt (prevIsWord : Bool) (cs : List Char) : Option (List Char × List Char) :=
  if prevIsWord then none
  else
    match cs with
    | '1' :: '0' :: '.' :: rest =>
      let digits := rest.takeWhile Char.isDigit
      let rest2 := rest.dropWhile Char.isDigit
      if digits.length < 4 then none
      else
        match rest2 with
        | '/' :: rest3 =>
          let run := rest3.takeWhile doiClassChar
          let rest4 := rest3.dropWhile doiClassChar
          if run.isEmpty then none
          else
            match shrinkRev run.reverse rest4.head? with
            | some (kept, dropped) =>
              some ('1' :: '0' :: '.' :: (digits ++ '/' :: kept), dropped ++ rest4)
            | none => none
        | _ => none
    | _ => none

/-- `re.findall(DOI_REGEX, text, re.IGNORECASE)`: scan left to right,
non-overlapping (fuel-structural; `cs.length` fuel suffices). -/
def doiFindallF : Nat → Bool → List Char → List (List Char)
  | 0, _, _ => []
  | _ + 1, _, [] => []
  | fuel + 1, prevW, c :: cs =>
    match matchDoiAt prevW (c :: cs) with
    | some (m, rest) =>
      m :: doiFindallF fuel (match m.getLast? with
                             | some x => isWordChar x
                             | none => false) rest
    | none => doiFindallF fuel (isWordChar c) cs

def doiFindall (cs : List Char) : List (List Char) := doiFindallF cs.length false cs

/-- The selection loop of `extract_doi_from_text` over the (capped) match
list: first match that contains a slash and is longer than 10 characters,
lower-cased. -/
def doiLoop : List (List Char) → Option String
  | [] => none
  | m :: rest =>
    if m.contains '/' && decide (10 < m.length) then
      some (String.mk (m.map Char.toLower))
    else doiLoop rest

/-- `extractor.extract_doi_from_text`: only the first ten regex matches are
examined (`matches[:10]`). -/
def extract_doi_from_text (text : String) : Option String :=
  doiLoop ((doiFindall text.data).take 10)

/-- DOI extraction following the claim words (no ten-match cap), for
comparison with the code. -/
def specExtractDoi (text : String) : Option String :=
  doiLoop (doiFindall text.data)

lemma doiLoop_eq_find (l : List (List Char)) :
    doiLoop l =
      (l.find? (fun m => m.contains '/' && decide (10 < m.length))).map
        (fun m => String.mk (m.map Char.toLower)) := by
  induction l with
  | nil => rfl
  | cons m rest ih =>
    unfold doiLoop
    by_cases h : (m.contains '/' && decide (10 < m.length)) = true
    · rw [if_pos h]
      rw [List.find?_cons]
      rw [h]
      rfl
    · have hb : (m.contains '/' && decide (10 < m.length)) = false := by
        simpa using h
      rw [if_neg (by simpa using h)]
      rw [List.find?_cons]
      rw [hb]
      exact ih

/-- C8 (amended): DOI extraction returns, among the first ten regex matches,
the first one that contains a slash and is longer than 10 characters,
lower-cased with its character content otherwise unchanged; `None` when no
such match exists among the first ten. -/
theorem extract_doi_spec (text : String) :
    extract_doi_from_text text =
      (((doiFindall text.data).take 10).find?
          (fun m => m.contains '/' && decide (10 < m.length))).map
        (fun m => String.mk (m.map Char.toLower)) :=
  doiLoop_eq_find _

/-- A text whose first ten regex matches are all exactly ten characters long
(hence skipped) and whose eleventh match is the well-formed DOI
`10.1234/abc`. -/
def doiCexText : String :=
  "10.1234/ab 10.1234/ab 10.1234/ab 10.1234/ab 10.1234/ab 10.1234/ab 10.1234/ab 10.1234/ab 10.1234/ab 10.1234/ab 10.1234/abc"

/-- C8 counterexample: the claim as stated returns the first qualifying match
of the whole text (`10.1234/abc` here), but the code inspects only
`matches[:10]` and returns `None` because the eleventh match is never
examined. -/
theorem extract_doi_first_match_cex :
    specExtractDoi doiCexText = some "10.1234/abc" ∧
    extract_doi_from_text doiCexText = none :=
  ⟨by decide, by decide⟩

/-! ### extractor.extract_year_from_text

`YEAR_REGEX = r'\b(19[5-9]\d|20[0-2]\d)\b'` — a boundary-delimited 4-digit
year in 1950..2029 — searched with `re.findall`, then a dict-based majority
vote with a set-based single-occurrence fallback. -/

/-- The numeric value of an ASCII digit character. -/
def digitVal (c : Char) : Option Nat :=
  if c == '0' then some 0
  else if c == '1' then some 1
  else if c == '2' then some 2
  else if c == '3' then some 3
  else if c == '4' then some 4
  else if c == '5' then some 5
  else if c == '6' then some 6
  else if c == '7' then some 7
  else if c == '8' then some 8
  else if c == '9' then some 9
  else none

/-- Try the year alternation at the start of the input: four digits shaped
`19[5-9]\d` or `20[0-2]\d`, followed by a word boundary (`rest` empty or a
non-word character; the preceding `\b` is checked by the caller). -/
def yearAt : List Char → Option (Nat × List Char)
  | c1 :: c2 :: c3 :: c4 :: rest =>
    match digitVal c1, digitVal c2, digitVal c3, digitVal c4 with
    | some d1, some d2, some d3, some d4 =>
      if ((decide (d1 = 1) && decide (d2 = 9) && decide (5 ≤ d3)) ||
            (decide (d1 = 2) && decide (d2 = 0) && decide (d3 ≤ 2))) &&
          (match rest with
           | [] => true
           | d :: _ => !isWordChar d) then
        some (d1 * 1000 + d2 * 100 + d3 * 10 + d4, rest)
      else none
    | _, _, _, _ => none
  | _ => none

/-- `re.findall(YEAR_REGEX, text)` as the list of year values, left to right,
non-overlapping (fuel-structural; `cs.length` suffices). -/
def yearFindallF : Nat → Bool → List Char → List Nat
  | 0, _, _ => []
  | _ + 1, _, [] => []
  | fuel + 1, prevW, c :: cs =>
    if prevW then yearFindallF fuel (isWordChar c) cs
    else
      match yearAt (c :: cs) with
      | some (y, rest) => y :: yearFindallF fuel true rest
      | none => yearFindallF fuel (isWordChar c) cs

def yearFindall (cs : List Char) : List Nat := yearFindallF cs.length false cs

/-- First-occurrence deduplication: the key order of the Python counting dict
(insertion order).  Fuel-structural; `l.length` fuel suffices. -/
def firstDedupF : Nat → List Nat → List Nat
  | 0, _ => []
  | _ + 1, [] => []
  | fuel + 1, x :: xs => x :: firstDedupF fuel (xs.filter (fun y => y ≠ x))

def firstDedup (l : List Nat) : List Nat := firstDedupF l.length l

/-- `max(keys, key=lambda k: l.count(k))`: Python `max` keeps the first
maximum, replacing only on a strictly larger key. -/
def argmaxCount (keys : List Nat) (l : List Nat) : Option Nat :=
  keys.foldl
    (fun best k =>
      match best with
      | none => some k
      | some b => if l.count b < l.count k then some k else best)
    none

/-- `extractor.extract_year_from_text` on the list of regex matches: return
the most frequent year when it repeats (dict-based majority vote, insertion
order on ties), else the single fallback candidate when it lies in
1990..2025, else `None`.  The Python fallback `max(set(years),
key=years.count)` iterates the set in an implementation-defined order; it is
only reached when every count is 1, so every choice is a single-occurrence
year — the model uses first-occurrence order and the theorems are stated so
as not to depend on the choice. -/
def extract_year_core (ms : List Nat) : Option Nat :=
  match argmaxCount (firstDedup ms) ms with
  | none => none
  | some m =>
    if 2 ≤ ms.count m then some m
    else if 1990 ≤ m ∧ m ≤ 2025 then some m
    else none

def extract_year_from_text (text : String) : Option Nat :=
  extract_year_core (yearFindall text.data)

/-! Lemmas for C9 -/

set_option maxHeartbeats 1000000 in
lemma digitVal_le_9 {c : Char} {d : Nat} (h : digitVal c = some d) : d ≤ 9 := by
  unfold digitVal at h
  split_ifs at h <;> (try simp_all) <;> omega

lemma yearAt_range {cs rest : List Char} {y : Nat} (h : yearAt cs = some (y, rest)) :
    1950 ≤ y ∧ y ≤ 2029 := by
  unfold yearAt at h
  split at h
  case h_2 => simp at h
  case h_1 c1 c2 c3 c4 r =>
    split at h
    case h_2 => simp at h
    case h_1 d1 d2 d3 d4 h1 h2 h3 h4 =>
      split at h
      case isFalse => simp at h
      case isTrue hc =>
        rw [Option.some.injEq, Prod.mk.injEq] at h
        obtain ⟨rfl, rfl⟩ := h
        rw [Bool.and_eq_true, Bool.or_eq_true] at hc
        have h3' := digitVal_le_9 h3
        have h4' := digitVal_le_9 h4
        rcases hc.1 with hA | hA <;>
          · rw [Bool.and_eq_true, Bool.and_eq_true] at hA
            simp only [decide_eq_true_eq] at hA
            omega

lemma yearFindallF_range :
    ∀ (fuel : Nat) (prevW : Bool) (cs : List Char) (y : Nat),
      y ∈ yearFindallF fuel prevW cs → 1950 ≤ y ∧ y ≤ 2029 := by
  intro fuel
  induction fuel with
  | zero => intro _ cs y h; simp [yearFindallF] at h
  | succ n ih =>
    intro prevW cs y h
    cases cs with
    | nil => simp [yearFindallF] at h
    | cons c rest =>
      rw [yearFindallF] at h
      by_cases hw : prevW = true
      · rw [if_pos hw] at h
        exact ih _ _ y h
      · rw [if_neg hw] at h
        rcases hm : yearAt (c :: rest) with _ | ⟨y2, rest2⟩
        · rw [hm] at h
          exact ih _ _ y h
        · rw [hm] at h
          dsimp only at h
          rcases List.mem_cons.mp h with rfl | h
          · exact yearAt_range hm
          · exact ih _ _ y h

lemma mem_firstDedupF : ∀ (fuel : Nat) (l : List Nat) (x : Nat),
    x ∈ firstDedupF fuel l → x ∈ l := by
  intro fuel
  induction fuel with
  | zero => intro l x h; simp [firstDedupF] at h
  | succ n ih =>
    intro l x h
    cases l with
    | nil => simp [firstDedupF] at h
    | cons a xs =>
      rw [firstDedupF] at h
      rcases List.mem_cons.mp h with rfl | h
      · exact List.mem_cons_self _ _
      · exact List.mem_cons_of_mem _ (List.mem_of_mem_filter (ih _ x h))

lemma firstDedupF_complete : ∀ (fuel : Nat) (l : List Nat), l.length ≤ fuel →
    ∀ x ∈ l, x ∈ firstDedupF fuel l := by
  intro fuel
  induction fuel with
  | zero =>
    intro l hl x hx
    rw [Nat.le_zero, List.length_eq_zero] at hl
    subst hl
    simp at hx
  | succ n ih =>
    intro l hl x hx
    cases l with
    | nil => simp at hx
    | cons a xs =>
      rw [firstDedupF]
      rcases List.mem_cons.mp hx with rfl | hx
      · exact List.mem_cons_self _ _
      · by_cases hxa : x = a
        · subst hxa
          exact List.mem_cons_self _ _
        · refine List.mem_cons_of_mem _ (ih _ ?_ x ?_)
          · calc (xs.filter (fun y => y ≠ a)).length ≤ xs.length := List.length_filter_le _ _
              _ ≤ n := by simpa using hl
          · rw [List.mem_filter]
            exact ⟨hx, by simpa using hxa⟩

lemma argmaxFold_spec (l : List Nat) : ∀ (keys : List Nat) (b : Nat),
    ∃ m, keys.foldl
        (fun best k =>
          match best with
          | none => some k
          | some b => if l.count b < l.count k then some k else best)
        (some b) = some m ∧
      (m = b ∨ m ∈ keys) ∧ l.count b ≤ l.count m ∧
      ∀ k ∈ keys, l.count k ≤ l.count m := by
  intro keys
  induction keys with
  | nil => intro b; exact ⟨b, rfl, Or.inl rfl, le_rfl, by simp⟩
  | cons k ks ih =>
    intro b
    rw [List.foldl_cons]
    dsimp only
    by_cases hlt : l.count b < l.count k
    · rw [if_pos hlt]
      obtain ⟨m, hm, hmem, hbk, hall⟩ := ih k
      refine ⟨m, hm, ?_, le_trans (le_of_lt hlt) hbk, ?_⟩
      · rcases hmem with rfl | hmem
        · exact Or.inr (List.mem_cons_self _ _)
        · exact Or.inr (List.mem_cons_of_mem _ hmem)
      · intro k' hk'
        rcases List.mem_cons.mp hk' with rfl | hk'
        · exact hbk
        · exact hall k' hk'
    · rw [if_neg hlt]
      obtain ⟨m, hm, hmem, hbb, hall⟩ := ih b
      refine ⟨m, hm, ?_, hbb, ?_⟩
      · rcases hmem with rfl | hmem
        · exact Or.inl rfl
        · exact Or.inr (List.mem_cons_of_mem _ hmem)
      · intro k' hk'
        rcases List.mem_cons.mp hk' with rfl | hk'
        · exact le_trans (le_of_not_lt hlt) hbb
        · exact hall k' hk'

lemma argmaxCount_spec {keys l : List Nat} (hne : keys ≠ []) :
    ∃ m, argmaxCount keys l = some m ∧ m ∈ keys ∧ ∀ k ∈ keys, l.count k ≤ l.count m := by
  cases keys with
  | nil => exact absurd rfl hne
  | cons k ks =>
    unfold argmaxCount
    rw [List.foldl_cons]
    dsimp only
    obtain ⟨m, hm, hmem, hkk, hall⟩ := argmaxFold_spec l ks k
    refine ⟨m, hm, ?_, ?_⟩
    · rcases hmem with rfl | hmem
      · exact List.mem_cons_self _ _
      · exact List.mem_cons_of_mem _ hmem
    · intro k' hk'
      rcases List.mem_cons.mp hk' with rfl | hk'
      · exact hkk
      · exact hall k' hk'

lemma firstDedup_ne_nil {l : List Nat} (h : l ≠ []) : firstDedup l ≠ [] := by
  cases l with
  | nil => exact absurd rfl h
  | cons a xs =>
    unfold firstDedup
    simp only [List.length_cons]
    rw [firstDedupF]
    exact List.cons_ne_nil _ _

/-- C9: year extraction collects only 4-digit years in [1950, 2029]; when
some collected year repeats, the result is a maximally frequent year with
count at least 2 (majority vote); when the matches are non-empty and all
distinct, some (tied-maximal) single-occurrence year `c` is chosen and
returned iff `1990 ≤ c ≤ 2025`; with no matches the result is `None`. -/
theorem extract_year_spec (text : String) :
    (∀ y ∈ yearFindall text.data, 1950 ≤ y ∧ y ≤ 2029) ∧
    ((∃ y ∈ yearFindall text.data, 2 ≤ (yearFindall text.data).count y) →
      ∃ m, extract_year_from_text text = some m ∧
        2 ≤ (yearFindall text.data).count m ∧
        ∀ y ∈ yearFindall text.data,
          (yearFindall text.data).count y ≤ (yearFindall text.data).count m) ∧
    ((yearFindall text.data ≠ [] ∧
        ∀ y ∈ yearFindall text.data, (yearFindall text.data).count y ≤ 1) →
      ∃ c, c ∈ yearFindall text.data ∧
        extract_year_from_text text =
          (if 1990 ≤ c ∧ c ≤ 2025 then some c else none)) ∧
    (yearFindall text.data = [] → extract_year_from_text text = none) := by
  set M := yearFindall text.data with hM
  refine ⟨fun y hy => yearFindallF_range _ _ _ y hy, ?_, ?_, ?_⟩
  · rintro ⟨y, hy, hcy⟩
    have hne : firstDedup M ≠ [] := firstDedup_ne_nil (by
      intro h0
      rw [h0] at hy
      simp at hy)
    obtain ⟨m, hm, hmem, hall⟩ := argmaxCount_spec (l := M) hne
    have hmax : ∀ k ∈ M, M.count k ≤ M.count m := by
      intro k hk
      exact hall k (firstDedupF_complete _ _ le_rfl k hk)
    have hc2 : 2 ≤ M.count m := le_trans hcy (hmax y hy)
    refine ⟨m, ?_, hc2, hmax⟩
    unfold extract_year_from_text extract_year_core
    rw [← hM, hm]
    dsimp only
    rw [if_pos hc2]
  · rintro ⟨hne, hones⟩
    have hne2 : firstDedup M ≠ [] := firstDedup_ne_nil hne
    obtain ⟨m, hm, hmem, hall⟩ := argmaxCount_spec (l := M) hne2
    have hmm : m ∈ M := mem_firstDedupF _ _ _ hmem
    have hc1 : M.count m ≤ 1 := hones m hmm
    refine ⟨m, hmm, ?_⟩
    unfold extract_year_from_text extract_year_core
    rw [← hM, hm]
    dsimp only
    rw [if_neg (by omega)]
  · intro h0
    unfold extract_year_from_text extract_year_core
    rw [← hM, h0]
    rfl

theorem extract_year_spec_witness :
    ∃ m, extract_year_from_text "2020 2020 1999" = some m ∧
      2 ≤ (yearFindall "2020 2020 1999".data).count m ∧
      ∀ y ∈ yearFindall "2020 2020 1999".data,
        (yearFindall "2020 2020 1999".data).count y ≤
          (yearFindall "2020 2020 1999".data).count m :=
  (extract_year_spec "2020 2020 1999").2.1 ⟨2020, by decide, by decide⟩

theorem validate_patent_number_amended_witness :
    PatentAccepted "ZL202211551727.X" :=
  (validate_patent_number_amended.1 "ZL202211551727.X").mp (by decide)
